import Mathlib

/-!
Shallow embedding of the MLP binary classifier in `src/train.py`.

Matrices (2-D numpy arrays) are modelled as `List (List α)` (a list of rows)
over a linear ordered field `α`.  The bias of a layer, stored as a `(1, n)`
array in the source, is modelled as the single row `List α`.  The external
numerical primitives `np.exp` and `np.log` are passed in as function
parameters `expF`/`logF`, and the random draws of `np.random.rand` /
`np.random.randn` as explicit index-addressed streams, so that every
definition stays computable and the randomness of the source is an explicit
input.  Out-of-range indexing, which would raise in Python, is modelled by
`List.getD` with a default; all theorems about well-formed models never hit
the defaults.
-/

set_option autoImplicit false
set_option linter.unusedSectionVars false

namespace MLP

variable {α : Type} [LinearOrderedField α]

/-- A 2-D array: list of rows. -/
abbrev Mat (α : Type) : Type := List (List α)

/-- Python `xs[-1]` (last element, with a default for the empty list). -/
def lastD {β : Type} (l : List β) (d : β) : β := l.getD (l.length - 1) d

/-- Entry `(r, c)` of a matrix, defaulting to 0 out of range. -/
def entry (M : Mat α) (r c : ℕ) : α := (M.getD r []).getD c 0

/-- Dot product of two rows. -/
def dot (x y : List α) : α := (List.zipWith (· * ·) x y).sum

/-- Transpose of a rectangular matrix; the column count is read off the
first row, as for a numpy array. -/
def transposeM (M : Mat α) : Mat α :=
  (List.range (M.headD []).length).map (fun j => M.map (fun row => row.getD j 0))

/-- Matrix product `np.dot`. -/
def matMul (A B : Mat α) : Mat α :=
  A.map (fun row => (transposeM B).map (fun col => dot row col))

/-- Row-broadcast addition of a bias row (`Z + b` with `b` of shape `(1, n)`). -/
def addBias (Z : Mat α) (b : List α) : Mat α :=
  Z.map (fun row => List.zipWith (· + ·) row b)

/-- Elementwise map over a matrix. -/
def matMap (f : α → α) (A : Mat α) : Mat α := A.map (fun row => row.map f)

/-- Elementwise combination of two matrices. -/
def map2M (f : α → α → α) (A B : Mat α) : Mat α :=
  List.zipWith (List.zipWith f) A B

/-- Elementwise product `A * B`. -/
def hadamard (A B : Mat α) : Mat α := map2M (· * ·) A B

/-- Column sums of a matrix: `np.sum(delta, axis=0, keepdims=True)`,
returned as the single row. -/
def colSum : Mat α → List α
  | [] => []
  | [row] => row
  | row :: rest => List.zipWith (· + ·) row (colSum rest)

/-- The stabilisation constant `1e-8` of the source. -/
def eps : α := 1 / 100000000

/-- Source `sigmoid(x) = 1 / (1 + np.exp(-x))`; `expF` models `np.exp`. -/
def sigmoid (expF : α → α) (x : α) : α := 1 / (1 + expF (-x))

/-- Source `sigmoidDerivative(x) = x * (1 - x)` (argument is the forward output). -/
def sigmoidDerivative (x : α) : α := x * (1 - x)

/-- Source `relu(x) = np.maximum(0, x)`. -/
def relu (x : α) : α := max 0 x

/-- Source `reluDerivative(x) = (x > 0).astype(float)`. -/
def reluDerivative (x : α) : α := if 0 < x then 1 else 0

/-- The `ACTIVATIONS` registry mapping names to (function, derivative). -/
def ACTIVATIONS (expF : α → α) : List (String × ((α → α) × (α → α))) :=
  [("sigmoid", (sigmoid expF, sigmoidDerivative)),
   ("relu", (relu, reluDerivative))]

/-- Source `binary_cross_entropy`: mean over all entries of
`-(y log(p + 1e-8) + (1 - y) log(1 - p + 1e-8))`; `logF` models `np.log`. -/
def binary_cross_entropy (logF : α → α) (y_true y_pred : Mat α) : α :=
  -(((map2M (fun yt yp => yt * logF (yp + eps) + (1 - yt) * logF (1 - yp + eps))
        y_true y_pred).foldr (· ++ ·) []).sum /
    (((map2M (fun yt yp => yt * logF (yp + eps) + (1 - yt) * logF (1 - yp + eps))
        y_true y_pred).foldr (· ++ ·) []).length : α))

/-- Source `binary_cross_entropyDerivative(y_true, y_pred)`. -/
def binary_cross_entropyDerivative (y_true y_pred : Mat α) : Mat α :=
  map2M (fun yt yp => (yp - yt) / ((yp * (1 - yp)) + eps)) y_true y_pred

/-- Source `l2_penalty(weights, alpha) = alpha * sum(np.sum(w ** 2) for w in weights)`. -/
def l2_penalty (weights : List (Mat α)) (alpha : α) : α :=
  alpha * (weights.map (fun w => (w.map (fun row => (row.map (fun v => v ^ 2)).sum)).sum)).sum

/-- The model state of `MLPBinaryClassifier` (the fields set in `__init__`). -/
structure MLPBinaryClassifier (α : Type) where
  input_size : ℕ
  hidden_layers : List ℕ
  activations : List String
  learning_rate : α
  epochs : ℕ
  l2_lambda : α
  dropout_rates : List α
  weights : List (Mat α)
  biases : List (List α)
  activation_funcs : List (α → α)
  activation_derivatives : List (α → α)
  train_losses : List α
  val_losses : List α

/-- One row of a Bernoulli keep mask: entry `c` is 1 when the uniform draw
`u c` exceeds the drop rate, else 0 (`np.random.rand(*shape) > rate`). -/
def maskRow (u : ℕ → α) (rate : α) : ℕ → List α → List α
  | _, [] => []
  | c, _ :: rest => (if rate < u c then 1 else 0) :: maskRow u rate (c + 1) rest

/-- The dropout mask drawn for an activation matrix `A`: a 0/1 matrix of the
same shape, entry `(r, c)` keeping iff `u r c > rate`. -/
def bernMask (u : ℕ → ℕ → α) (rate : α) : ℕ → Mat α → Mat α
  | _, [] => []
  | r, row :: rest => maskRow (u r) rate 0 row :: bernMask u rate (r + 1) rest

/-- Lines 75-76 of the source at layer index `i`:
`A = activation_funcs[i](A @ weights[i] + biases[i])`. -/
def layerLinAct (m : MLPBinaryClassifier α) (i : ℕ) (A : Mat α) : Mat α :=
  matMap (m.activation_funcs.getD i id)
    (addBias (matMul A (m.weights.getD i [])) (m.biases.getD i []))

/-- One iteration of the loop in `forward` (lines 75-90 of the source) at
layer index `i` with incoming activation `A`: the linear/activation step,
then inverted dropout when training, `i < len(dropout_rates)` and
`dropout_rates[i] > 0`.  `U i` is the uniform stream backing
`np.random.rand` for layer `i`.  Returns the layer output and the recorded
mask (`none` models Python `None`). -/
def layerStep (m : MLPBinaryClassifier α) (U : ℕ → ℕ → ℕ → α) (training : Bool)
    (i : ℕ) (A : Mat α) : Mat α × Option (Mat α) :=
  let A2 := layerLinAct m i A
  match training, m.dropout_rates[i]? with
  | true, some rate =>
    if 0 < rate then
      let msk := bernMask (U i) rate 0 A2
      (matMap (fun v => v / (1 - rate)) (hadamard A2 msk), some msk)
    else (A2, none)
  | _, _ => (A2, none)

/-- The loop `for i in range(len(self.weights))` of `forward`, parametrised
by the number of remaining iterations and the current index. Returns the
activations appended after the input, and the dropout masks. -/
def forwardLoop (m : MLPBinaryClassifier α) (U : ℕ → ℕ → ℕ → α) (training : Bool) :
    ℕ → ℕ → Mat α → List (Mat α) × List (Option (Mat α))
  | 0, _, _ => ([], [])
  | n + 1, i, A =>
    let r0 := layerStep m U training i A
    let r := forwardLoop m U training n (i + 1) r0.1
    (r0.1 :: r.1, r0.2 :: r.2)

/-- Source `forward(X, training)`: the activation cache (input first) and the
dropout masks. -/
def forward (m : MLPBinaryClassifier α) (U : ℕ → ℕ → ℕ → α) (X : Mat α)
    (training : Bool) : List (Mat α) × List (Option (Mat α)) :=
  let r := forwardLoop m U training m.weights.length 0 X
  (X :: r.1, r.2)

/-- Lines 105-107 of the source, for current layer index `i ≥ 1`: propagate
`delta` through `weights[i]`, multiply by the activation derivative of the
cached activation, and, when a mask was recorded for layer `i - 1`, multiply
elementwise by that mask. -/
def propagateDelta (m : MLPBinaryClassifier α) (acts : List (Mat α))
    (masks : List (Option (Mat α))) (i : ℕ) (delta : Mat α) : Mat α :=
  let d2 := hadamard (matMul delta (transposeM (m.weights.getD i [])))
      (matMap (m.activation_derivatives.getD (i - 1) id) (acts.getD i []))
  match masks.getD (i - 1) none with
  | some msk => hadamard d2 msk
  | none => d2

/-- The loop `for i in reversed(range(len(self.weights)))` of `backward`,
run from layer index `i` down to 0; gradients are collected so that index 0
of the result corresponds to the first layer. -/
def backwardAux (m : MLPBinaryClassifier α) (acts : List (Mat α))
    (masks : List (Option (Mat α))) : ℕ → Mat α → List (Mat α) × List (List α)
  | 0, delta =>
    ([matMul (transposeM (acts.getD 0 [])) delta], [colSum delta])
  | i + 1, delta =>
    let gw := matMul (transposeM (acts.getD (i + 1) [])) delta
    let gb := colSum delta
    let r := backwardAux m acts masks i (propagateDelta m acts masks (i + 1) delta)
    (r.1 ++ [gw], r.2 ++ [gb])

/-- Source `backward(activations, y, dropout_masks)`: weight and bias
gradients, index-aligned with the weights. -/
def backward (m : MLPBinaryClassifier α) (acts : List (Mat α)) (y : Mat α)
    (masks : List (Option (Mat α))) : List (Mat α) × List (List α) :=
  match m.weights.length with
  | 0 => ([], [])
  | n + 1 =>
    let aL := lastD acts []
    let delta := hadamard (binary_cross_entropyDerivative y aL)
        (matMap (lastD m.activation_derivatives id) aL)
    backwardAux m acts masks n delta

/-- Source `update_weights`: `w[i] -= lr * grads_w[i]`, `b[i] -= lr * grads_b[i]`. -/
def update_weights (m : MLPBinaryClassifier α) (grads_w : List (Mat α))
    (grads_b : List (List α)) : MLPBinaryClassifier α :=
  { m with
    weights := List.zipWith (fun w g => map2M (fun a b => a - m.learning_rate * b) w g)
      m.weights grads_w,
    biases := List.zipWith (fun b g => List.zipWith (fun a u => a - m.learning_rate * u) b g)
      m.biases grads_b }

/-- The forward/backward/update part of one epoch (lines 119-121). -/
def postUpdate (m : MLPBinaryClassifier α) (Ue : ℕ → ℕ → ℕ → α) (X y : Mat α) :
    MLPBinaryClassifier α :=
  let fw := forward m Ue X true
  let g := backward m fw.1 y fw.2
  update_weights m g.1 g.2

/-- One epoch of `train` (lines 119-129): forward in training mode, backward,
update, append the train loss, and, when both validation arrays are supplied,
append the validation loss computed from a non-training forward pass on the
updated model. `logF` models `np.log`. -/
def epochStep (m : MLPBinaryClassifier α) (logF : α → α) (Ue : ℕ → ℕ → ℕ → α)
    (X y : Mat α) (Xval yval : Option (Mat α)) : MLPBinaryClassifier α :=
  let m1 := postUpdate m Ue X y
  let tl := binary_cross_entropy logF y (lastD (forward m Ue X true).1 []) +
    l2_penalty m1.weights m1.l2_lambda
  let m2 := { m1 with train_losses := m1.train_losses ++ [tl] }
  match Xval, yval with
  | some Xv, some yv =>
    let val_preds := lastD (forward m2 Ue Xv false).1 []
    let vl := binary_cross_entropy logF yv val_preds + l2_penalty m2.weights m2.l2_lambda
    { m2 with val_losses := m2.val_losses ++ [vl] }
  | _, _ => m2

/-- The epoch loop of `train`: `k` remaining epochs, `e` the current epoch
index; `U e` is the random stream used by epoch `e`. -/
def trainEpochs (logF : α → α) (U : ℕ → ℕ → ℕ → ℕ → α) (X y : Mat α)
    (Xval yval : Option (Mat α)) : ℕ → ℕ → MLPBinaryClassifier α → MLPBinaryClassifier α
  | 0, _, m => m
  | k + 1, e, m => trainEpochs logF U X y Xval yval k (e + 1) (epochStep m logF (U e) X y Xval yval)

/-- Source `train(X, y, X_val, y_val)`: runs `epochs` epochs. -/
def train (m : MLPBinaryClassifier α) (logF : α → α) (U : ℕ → ℕ → ℕ → ℕ → α)
    (X y : Mat α) (Xval yval : Option (Mat α)) : MLPBinaryClassifier α :=
  trainEpochs logF U X y Xval yval m.epochs 0 m

/-- Source `predict(X) = (self.forward(X)[0][-1] > 0.5).astype(int)`;
`forward` is called with its default `training=False`. -/
def predict (m : MLPBinaryClassifier α) (U : ℕ → ℕ → ℕ → α) (X : Mat α) :
    List (List ℕ) :=
  (lastD (forward m U X false).1 []).map
    (fun row => row.map (fun v => if 1 / 2 < v then 1 else 0))

/-- Resolution of the dropout-rate argument in `__init__` (line 45):
`dropout_rates if dropout_rates else [0.0] * len(hidden_layers)` — both the
absent argument and an empty list are falsy and fall back to the default. -/
def resolveRates (hidden_layers : List ℕ) (dropout_rates : Option (List α)) : List α :=
  match dropout_rates with
  | some (r :: rs) => r :: rs
  | _ => List.replicate hidden_layers.length 0

/-- The activation-name resolution loop of `_initialize_network` (line 64):
looks each name up in `ACTIVATIONS`, failing like Python's `KeyError` at the
first unknown name. -/
def resolveActs (expF : α → α) : List String →
    Except String (List (α → α) × List (α → α))
  | [] => Except.ok ([], [])
  | nm :: rest =>
    match (ACTIVATIONS expF).lookup nm with
    | none => Except.error ("KeyError: " ++ nm)
    | some fd =>
      match resolveActs expF rest with
      | Except.error e => Except.error e
      | Except.ok p => Except.ok (fd.1 :: p.1, fd.2 :: p.2)

/-- The weight matrix for transition `i` between sizes `n → k`:
`np.random.randn(n, k) * 0.01`, with `G i r c` the Gaussian draw at `(r, c)`. -/
def initWeight (G : ℕ → ℕ → ℕ → α) (i n k : ℕ) : Mat α :=
  (List.range n).map (fun r => (List.range k).map (fun c => G i r c * (1 / 100)))

/-- Source `__init__` together with `_initialize_network`: checks the
activation count against `len(layer_sizes) - 1`, resolves the activation
names, and builds the randomly initialised weights and zero biases.
A `ValueError` / `KeyError` is modelled by `Except.error` with the message. -/
def initNetwork (input_size : ℕ) (hidden_layers : List ℕ) (activations : List String)
    (dropout_rates : Option (List α)) (learning_rate : α) (epochs : ℕ) (l2_lambda : α)
    (expF : α → α) (G : ℕ → ℕ → ℕ → α) : Except String (MLPBinaryClassifier α) :=
  let layer_sizes := input_size :: hidden_layers ++ [1]
  if activations.length ≠ layer_sizes.length - 1 then
    Except.error "# activation functions != # layers"
  else
    match resolveActs expF activations with
    | Except.error e => Except.error e
    | Except.ok p =>
      Except.ok
        { input_size := input_size
          hidden_layers := hidden_layers
          activations := activations
          learning_rate := learning_rate
          epochs := epochs
          l2_lambda := l2_lambda
          dropout_rates := resolveRates hidden_layers dropout_rates
          weights := (List.range (layer_sizes.length - 1)).map
            (fun i => initWeight G i (layer_sizes.getD i 0) (layer_sizes.getD (i + 1) 0))
          biases := (List.range (layer_sizes.length - 1)).map
            (fun i => List.replicate (layer_sizes.getD (i + 1) 0) 0)
          activation_funcs := p.1
          activation_derivatives := p.2
          train_losses := []
          val_losses := [] }

/-- A concrete constructed model over ℚ: `input_size = 1`, one hidden layer
of size 1, activations `["relu", "relu"]`, no dropout argument, with the
Gaussian stream constantly 0.  Used to evaluate the embedding on a concrete
instance. -/
def mRQ : MLPBinaryClassifier ℚ :=
  { input_size := 1
    hidden_layers := [1]
    activations := ["relu", "relu"]
    learning_rate := 1 / 100
    epochs := 1000
    l2_lambda := 1 / 1000
    dropout_rates := [0]
    weights := [[[0 * (1 / 100)]], [[0 * (1 / 100)]]]
    biases := [[0], [0]]
    activation_funcs := [relu, relu]
    activation_derivatives := [reluDerivative, reluDerivative]
    train_losses := []
    val_losses := [] }

/-- A concrete zero-hidden-layer logistic model over ℝ: one weight matrix
`[[0]]`, bias `[0]`, sigmoid output with the real exponential. -/
noncomputable def mLogR : MLPBinaryClassifier ℝ :=
  { input_size := 1
    hidden_layers := []
    activations := ["sigmoid"]
    learning_rate := 1 / 100
    epochs := 1
    l2_lambda := 0
    dropout_rates := [0]
    weights := [[[0]]]
    biases := [[0]]
    activation_funcs := [sigmoid Real.exp]
    activation_derivatives := [sigmoidDerivative]
    train_losses := []
    val_losses := [] }

/-- A concrete zero-hidden-layer sigmoid model over ℚ, with the external
exponential modelled by the constant-1 function (which agrees with the real
exponential at the only pre-activation reached, 0). -/
def mSQ : MLPBinaryClassifier ℚ :=
  { input_size := 1
    hidden_layers := []
    activations := ["sigmoid"]
    learning_rate := 1 / 100
    epochs := 1
    l2_lambda := 0
    dropout_rates := [0]
    weights := [[[0]]]
    biases := [[0]]
    activation_funcs := [sigmoid (fun _ => 1)]
    activation_derivatives := [sigmoidDerivative]
    train_losses := []
    val_losses := [] }

/-- A concrete one-hidden-layer relu model over ℚ with dropout rate 1/2 on
the hidden layer. -/
def mD1Q : MLPBinaryClassifier ℚ :=
  { input_size := 1
    hidden_layers := [1]
    activations := ["relu", "relu"]
    learning_rate := 1 / 100
    epochs := 1
    l2_lambda := 0
    dropout_rates := [1 / 2]
    weights := [[[0]], [[0]]]
    biases := [[0], [0]]
    activation_funcs := [relu, relu]
    activation_derivatives := [reluDerivative, reluDerivative]
    train_losses := []
    val_losses := [] }

/-- A concrete zero-hidden-layer relu model over ℚ whose dropout-rate list
has one entry per layer transition, so the (single, output) layer has a
positive dropout rate. -/
def mD0Q : MLPBinaryClassifier ℚ :=
  { input_size := 1
    hidden_layers := []
    activations := ["relu"]
    learning_rate := 1 / 100
    epochs := 1
    l2_lambda := 0
    dropout_rates := [1 / 2]
    weights := [[[0]]]
    biases := [[0]]
    activation_funcs := [relu]
    activation_derivatives := [reluDerivative]
    train_losses := []
    val_losses := [] }

section Lemmas

lemma forwardLoop_fst_length (m : MLPBinaryClassifier α) (U : ℕ → ℕ → ℕ → α)
    (tr : Bool) : ∀ (n i : ℕ) (A : Mat α), (forwardLoop m U tr n i A).1.length = n := by
  intro n
  induction n with
  | zero => intro i A; rfl
  | succ n ih => intro i A; simp [forwardLoop, ih]

lemma forwardLoop_snd_length (m : MLPBinaryClassifier α) (U : ℕ → ℕ → ℕ → α)
    (tr : Bool) : ∀ (n i : ℕ) (A : Mat α), (forwardLoop m U tr n i A).2.length = n := by
  intro n
  induction n with
  | zero => intro i A; rfl
  | succ n ih => intro i A; simp [forwardLoop, ih]

lemma forward_fst_length (m : MLPBinaryClassifier α) (U : ℕ → ℕ → ℕ → α)
    (X : Mat α) (tr : Bool) :
    (forward m U X tr).1.length = m.weights.length + 1 := by
  simp [forward, forwardLoop_fst_length]

lemma forward_snd_length (m : MLPBinaryClassifier α) (U : ℕ → ℕ → ℕ → α)
    (X : Mat α) (tr : Bool) :
    (forward m U X tr).2.length = m.weights.length := by
  simp [forward, forwardLoop_snd_length]

lemma forwardLoop_get (m : MLPBinaryClassifier α) (U : ℕ → ℕ → ℕ → α) (tr : Bool) :
    ∀ (n i : ℕ) (A : Mat α) (k : ℕ), k < n →
      (forwardLoop m U tr n i A).1[k]? =
        some (layerStep m U tr (i + k) ((A :: (forwardLoop m U tr n i A).1).getD k [])).1 ∧
      (forwardLoop m U tr n i A).2[k]? =
        some (layerStep m U tr (i + k) ((A :: (forwardLoop m U tr n i A).1).getD k [])).2 := by
  intro n
  induction n with
  | zero => intro i A k hk; omega
  | succ n ih =>
    intro i A k hk
    cases k with
    | zero => simp [forwardLoop]
    | succ k =>
      have hk' : k < n := by omega
      have h := ih (i + 1) (layerStep m U tr i A).1 k hk'
      have harith : i + 1 + k = i + (k + 1) := by omega
      rw [harith] at h
      simpa [forwardLoop] using h

lemma forward_cache_succ (m : MLPBinaryClassifier α) (U : ℕ → ℕ → ℕ → α)
    (X : Mat α) (tr : Bool) (k : ℕ) (hk : k < m.weights.length) :
    (forward m U X tr).1[k + 1]? =
      some (layerStep m U tr k ((forward m U X tr).1.getD k [])).1 := by
  have h := (forwardLoop_get m U tr m.weights.length 0 X k hk).1
  simpa [forward] using h

lemma forward_mask_get (m : MLPBinaryClassifier α) (U : ℕ → ℕ → ℕ → α)
    (X : Mat α) (tr : Bool) (k : ℕ) (hk : k < m.weights.length) :
    (forward m U X tr).2[k]? =
      some (layerStep m U tr k ((forward m U X tr).1.getD k [])).2 := by
  have h := (forwardLoop_get m U tr m.weights.length 0 X k hk).2
  simpa [forward] using h

lemma getD_zipWith (f : α → α → α) :
    ∀ (a b : List α) (c : ℕ), c < a.length → c < b.length →
      (List.zipWith f a b).getD c 0 = f (a.getD c 0) (b.getD c 0) := by
  intro a
  induction a with
  | nil => intro b c h1 h2; simp at h1
  | cons x xs ih =>
    intro b c h1 h2
    cases b with
    | nil => simp at h2
    | cons y ys =>
      cases c with
      | zero => rfl
      | succ c =>
        simp only [List.zipWith_cons_cons, List.getD_cons_succ]
        exact ih ys c (by simpa using h1) (by simpa using h2)

lemma getD_zipWith_mul_zero :
    ∀ (a b : List α) (c : ℕ), b.getD c 0 = 0 →
      (List.zipWith (· * ·) a b).getD c 0 = 0 := by
  intro a
  induction a with
  | nil => intro b c _; simp
  | cons x xs ih =>
    intro b c h
    cases b with
    | nil => simp
    | cons y ys =>
      cases c with
      | zero => simp only [List.getD_cons_zero] at h; simp [h]
      | succ c =>
        simp only [List.getD_cons_succ] at h
        simpa using ih ys c h

lemma entry_hadamard_zero :
    ∀ (A B : Mat α) (r c : ℕ), entry B r c = 0 → entry (hadamard A B) r c = 0 := by
  intro A
  induction A with
  | nil => intro B r c _; simp [hadamard, map2M, entry]
  | cons a As ih =>
    intro B r c h
    cases B with
    | nil => simp [hadamard, map2M, entry]
    | cons b Bs =>
      cases r with
      | zero =>
        simp only [entry, List.getD_cons_zero] at h ⊢
        simp only [hadamard, map2M, List.zipWith_cons_cons, List.getD_cons_zero]
        exact getD_zipWith_mul_zero a b c h
      | succ r =>
        simp only [entry, List.getD_cons_succ] at h ⊢
        simpa [hadamard, map2M, entry] using ih Bs r c h

lemma maskRow_length (u : ℕ → α) (rate : α) :
    ∀ (c0 : ℕ) (row : List α), (maskRow u rate c0 row).length = row.length := by
  intro c0 row
  induction row generalizing c0 with
  | nil => rfl
  | cons x xs ih => simp [maskRow, ih]

lemma maskRow_getD (u : ℕ → α) (rate : α) :
    ∀ (row : List α) (c0 c : ℕ), c < row.length →
      (maskRow u rate c0 row).getD c 0 = if rate < u (c0 + c) then 1 else 0 := by
  intro row
  induction row with
  | nil => intro c0 c h; simp at h
  | cons x xs ih =>
    intro c0 c h
    cases c with
    | zero => simp [maskRow]
    | succ c =>
      have := ih (c0 + 1) c (by simpa using h)
      have harith : c0 + 1 + c = c0 + (c + 1) := by omega
      rw [harith] at this
      simpa [maskRow] using this

lemma maskRow_getD_01 (u : ℕ → α) (rate : α) :
    ∀ (row : List α) (c0 c : ℕ),
      (maskRow u rate c0 row).getD c 0 = 0 ∨ (maskRow u rate c0 row).getD c 0 = 1 := by
  intro row
  induction row with
  | nil => intro c0 c; left; simp [maskRow]
  | cons x xs ih =>
    intro c0 c
    cases c with
    | zero =>
      simp only [maskRow, List.getD_cons_zero]
      split
      · right; rfl
      · left; rfl
    | succ c => simpa [maskRow] using ih (c0 + 1) c

lemma bernMask_length (u : ℕ → ℕ → α) (rate : α) :
    ∀ (r0 : ℕ) (A : Mat α), (bernMask u rate r0 A).length = A.length := by
  intro r0 A
  induction A generalizing r0 with
  | nil => rfl
  | cons row rest ih => simp [bernMask, ih]

lemma bernMask_getD (u : ℕ → ℕ → α) (rate : α) :
    ∀ (A : Mat α) (r0 r : ℕ), r < A.length →
      (bernMask u rate r0 A).getD r [] = maskRow (u (r0 + r)) rate 0 (A.getD r []) := by
  intro A
  induction A with
  | nil => intro r0 r h; simp at h
  | cons row rest ih =>
    intro r0 r h
    cases r with
    | zero => simp [bernMask]
    | succ r =>
      have := ih (r0 + 1) r (by simpa using h)
      have harith : r0 + 1 + r = r0 + (r + 1) := by omega
      rw [harith] at this
      simpa [bernMask] using this

lemma entry_bernMask_01 (u : ℕ → ℕ → α) (rate : α) :
    ∀ (A : Mat α) (r0 r c : ℕ),
      entry (bernMask u rate r0 A) r c = 0 ∨ entry (bernMask u rate r0 A) r c = 1 := by
  intro A
  induction A with
  | nil => intro r0 r c; left; simp [bernMask, entry]
  | cons row rest ih =>
    intro r0 r c
    cases r with
    | zero => simpa [bernMask, entry] using maskRow_getD_01 (u r0) rate row 0 c
    | succ r => simpa [bernMask, entry] using ih (r0 + 1) r c

lemma matMul_length (A B : Mat α) : (matMul A B).length = A.length := by
  simp [matMul]

lemma addBias_length (Z : Mat α) (b : List α) : (addBias Z b).length = Z.length := by
  simp [addBias]

lemma matMap_length (f : α → α) (A : Mat α) : (matMap f A).length = A.length := by
  simp [matMap]

lemma layerStep_fst_length (m : MLPBinaryClassifier α) (U : ℕ → ℕ → ℕ → α)
    (tr : Bool) (i : ℕ) (A : Mat α) : (layerStep m U tr i A).1.length = A.length := by
  unfold layerStep
  cases tr with
  | false => simp [layerLinAct, matMap_length, addBias_length, matMul_length]
  | true =>
    cases h : m.dropout_rates[i]? with
    | none => simp [layerLinAct, matMap_length, addBias_length, matMul_length]
    | some rate =>
      simp only []
      split
      · simp [layerLinAct, matMap_length, hadamard, map2M, List.length_zipWith,
          bernMask_length, addBias_length, matMul_length]
      · simp [layerLinAct, matMap_length, addBias_length, matMul_length]

lemma lastD_mem {β : Type} (l : List β) (d : β) (h : l ≠ []) : lastD l d ∈ l := by
  have hl : l.length - 1 < l.length := by
    cases l with
    | nil => exact absurd rfl h
    | cons x xs => simp
  rw [lastD, List.getD_eq_getElem?_getD, List.getElem?_eq_getElem hl]
  exact List.getElem_mem hl

lemma forwardLoop_rows (m : MLPBinaryClassifier α) (U : ℕ → ℕ → ℕ → α) (tr : Bool) :
    ∀ (n i : ℕ) (A M : Mat α), M ∈ (forwardLoop m U tr n i A).1 → M.length = A.length := by
  intro n
  induction n with
  | zero => intro i A M hM; simp [forwardLoop] at hM
  | succ n ih =>
    intro i A M hM
    simp only [forwardLoop, List.mem_cons] at hM
    rcases hM with h | h
    · rw [h]; exact layerStep_fst_length m U tr i A
    · rw [ih (i + 1) (layerStep m U tr i A).1 M h]
      exact layerStep_fst_length m U tr i A

lemma forward_final_rows (m : MLPBinaryClassifier α) (U : ℕ → ℕ → ℕ → α)
    (X : Mat α) (tr : Bool) : (lastD (forward m U X tr).1 []).length = X.length := by
  have hne : (X :: (forwardLoop m U tr m.weights.length 0 X).1) ≠ [] := by simp
  have hmem := lastD_mem (X :: (forwardLoop m U tr m.weights.length 0 X).1) [] hne
  show (lastD (X :: (forwardLoop m U tr m.weights.length 0 X).1) []).length = X.length
  rcases List.mem_cons.mp hmem with h | h
  · rw [h]
  · exact forwardLoop_rows m U tr m.weights.length 0 X _ h

lemma layerStep_congr (m m' : MLPBinaryClassifier α)
    (h1 : m.weights = m'.weights) (h2 : m.biases = m'.biases)
    (h3 : m.activation_funcs = m'.activation_funcs)
    (h4 : m.dropout_rates = m'.dropout_rates)
    (U : ℕ → ℕ → ℕ → α) (tr : Bool) (i : ℕ) (A : Mat α) :
    layerStep m U tr i A = layerStep m' U tr i A := by
  unfold layerStep layerLinAct
  rw [h1, h2, h3, h4]

lemma forwardLoop_congr (m m' : MLPBinaryClassifier α)
    (h1 : m.weights = m'.weights) (h2 : m.biases = m'.biases)
    (h3 : m.activation_funcs = m'.activation_funcs)
    (h4 : m.dropout_rates = m'.dropout_rates)
    (U : ℕ → ℕ → ℕ → α) (tr : Bool) :
    ∀ (n i : ℕ) (A : Mat α),
      forwardLoop m U tr n i A = forwardLoop m' U tr n i A := by
  intro n
  induction n with
  | zero => intro i A; rfl
  | succ n ih =>
    intro i A
    simp only [forwardLoop]
    rw [layerStep_congr m m' h1 h2 h3 h4 U tr i A, ih]

lemma forward_congr (m m' : MLPBinaryClassifier α)
    (h1 : m.weights = m'.weights) (h2 : m.biases = m'.biases)
    (h3 : m.activation_funcs = m'.activation_funcs)
    (h4 : m.dropout_rates = m'.dropout_rates)
    (U : ℕ → ℕ → ℕ → α) (X : Mat α) (tr : Bool) :
    forward m U X tr = forward m' U X tr := by
  unfold forward
  rw [h1, forwardLoop_congr m m' h1 h2 h3 h4 U tr]

lemma layerStep_false_U (m : MLPBinaryClassifier α) (U U' : ℕ → ℕ → ℕ → α)
    (i : ℕ) (A : Mat α) : layerStep m U false i A = layerStep m U' false i A := by
  unfold layerStep
  cases m.dropout_rates[i]? <;> rfl

lemma forward_false_U (m : MLPBinaryClassifier α) (U U' : ℕ → ℕ → ℕ → α)
    (X : Mat α) : forward m U X false = forward m U' X false := by
  unfold forward
  have : ∀ (n i : ℕ) (A : Mat α),
      forwardLoop m U false n i A = forwardLoop m U' false n i A := by
    intro n
    induction n with
    | zero => intro i A; rfl
    | succ n ih =>
      intro i A
      simp only [forwardLoop]
      rw [layerStep_false_U m U U' i A, ih]
  rw [this]

lemma layerStep_nonpos (m : MLPBinaryClassifier α)
    (h : ∀ r ∈ m.dropout_rates, ¬ (0 < r)) (U U' : ℕ → ℕ → ℕ → α)
    (tr tr' : Bool) (i : ℕ) (A : Mat α) :
    layerStep m U tr i A = layerStep m U' tr' i A := by
  unfold layerStep
  cases hr : m.dropout_rates[i]? with
  | none => cases tr <;> cases tr' <;> rfl
  | some rate =>
    have hmem : rate ∈ m.dropout_rates := by
      have := List.getElem?_eq_some_iff.mp hr
      rcases this with ⟨hlt, hget⟩
      rw [← hget]
      exact List.getElem_mem hlt
    have hnp := h rate hmem
    cases tr <;> cases tr' <;> simp [hnp]

lemma forward_nonpos (m : MLPBinaryClassifier α)
    (h : ∀ r ∈ m.dropout_rates, ¬ (0 < r)) (U U' : ℕ → ℕ → ℕ → α)
    (tr tr' : Bool) (X : Mat α) : forward m U X tr = forward m U' X tr' := by
  unfold forward
  have : ∀ (n i : ℕ) (A : Mat α),
      forwardLoop m U tr n i A = forwardLoop m U' tr' n i A := by
    intro n
    induction n with
    | zero => intro i A; rfl
    | succ n ih =>
      intro i A
      simp only [forwardLoop]
      rw [layerStep_nonpos m h U U' tr tr' i A, ih]
  rw [this]

lemma layerStep_false (m : MLPBinaryClassifier α) (U : ℕ → ℕ → ℕ → α)
    (i : ℕ) (A : Mat α) : layerStep m U false i A = (layerLinAct m i A, none) := by
  unfold layerStep
  cases m.dropout_rates[i]? <;> rfl

lemma layerStep_true_none (m : MLPBinaryClassifier α) (U : ℕ → ℕ → ℕ → α)
    (i : ℕ) (A : Mat α) (h : m.dropout_rates[i]? = none) :
    layerStep m U true i A = (layerLinAct m i A, none) := by
  unfold layerStep
  rw [h]

lemma layerStep_true_nonpos (m : MLPBinaryClassifier α) (U : ℕ → ℕ → ℕ → α)
    (i : ℕ) (A : Mat α) (rate : α) (h : m.dropout_rates[i]? = some rate)
    (hnp : ¬ (0 < rate)) : layerStep m U true i A = (layerLinAct m i A, none) := by
  unfold layerStep
  rw [h]
  simp [hnp]

lemma layerStep_true_pos (m : MLPBinaryClassifier α) (U : ℕ → ℕ → ℕ → α)
    (i : ℕ) (A : Mat α) (rate : α) (h : m.dropout_rates[i]? = some rate)
    (hp : 0 < rate) :
    layerStep m U true i A =
      (matMap (fun v => v / (1 - rate))
        (hadamard (layerLinAct m i A) (bernMask (U i) rate 0 (layerLinAct m i A))),
       some (bernMask (U i) rate 0 (layerLinAct m i A))) := by
  unfold layerStep
  rw [h]
  simp [hp]

lemma layerStep_mask_iff (m : MLPBinaryClassifier α) (U : ℕ → ℕ → ℕ → α)
    (i : ℕ) (A : Mat α) :
    (layerStep m U true i A).2 ≠ none ↔
      ∃ rate, m.dropout_rates[i]? = some rate ∧ 0 < rate := by
  cases h : m.dropout_rates[i]? with
  | none => simp [layerStep_true_none m U i A h, h]
  | some rate =>
    by_cases hp : 0 < rate
    · simp [layerStep_true_pos m U i A rate h hp, h, hp]
    · simp [layerStep_true_nonpos m U i A rate h hp, h, hp]

lemma propagateDelta_some (m : MLPBinaryClassifier α) (acts : List (Mat α))
    (masks : List (Option (Mat α))) (i : ℕ) (delta : Mat α) (msk : Mat α)
    (h : masks.getD i none = some msk) :
    propagateDelta m acts masks (i + 1) delta =
      hadamard (hadamard (matMul delta (transposeM (m.weights.getD (i + 1) [])))
        (matMap (m.activation_derivatives.getD i id) (acts.getD (i + 1) []))) msk := by
  unfold propagateDelta
  simp only [Nat.add_sub_cancel]
  rw [h]

lemma propagateDelta_none (m : MLPBinaryClassifier α) (acts : List (Mat α))
    (masks : List (Option (Mat α))) (i : ℕ) (delta : Mat α)
    (h : masks.getD i none = none) :
    propagateDelta m acts masks (i + 1) delta =
      hadamard (matMul delta (transposeM (m.weights.getD (i + 1) [])))
        (matMap (m.activation_derivatives.getD i id) (acts.getD (i + 1) [])) := by
  unfold propagateDelta
  simp only [Nat.add_sub_cancel]
  rw [h]

lemma propagateDelta_congr (m m' : MLPBinaryClassifier α)
    (h1 : m.weights = m'.weights)
    (h5 : m.activation_derivatives = m'.activation_derivatives)
    (acts : List (Mat α)) (masks : List (Option (Mat α))) (i : ℕ) (delta : Mat α) :
    propagateDelta m acts masks i delta = propagateDelta m' acts masks i delta := by
  unfold propagateDelta
  rw [h1, h5]

lemma backwardAux_congr (m m' : MLPBinaryClassifier α)
    (h1 : m.weights = m'.weights)
    (h5 : m.activation_derivatives = m'.activation_derivatives)
    (acts : List (Mat α)) (masks : List (Option (Mat α))) :
    ∀ (n : ℕ) (delta : Mat α),
      backwardAux m acts masks n delta = backwardAux m' acts masks n delta := by
  intro n
  induction n with
  | zero => intro delta; rfl
  | succ n ih =>
    intro delta
    simp only [backwardAux]
    rw [propagateDelta_congr m m' h1 h5, ih]

lemma backward_congr (m m' : MLPBinaryClassifier α)
    (h1 : m.weights = m'.weights)
    (h5 : m.activation_derivatives = m'.activation_derivatives)
    (acts : List (Mat α)) (y : Mat α) (masks : List (Option (Mat α))) :
    backward m acts y masks = backward m' acts y masks := by
  unfold backward
  rw [h1, h5]
  cases hn : m'.weights.length with
  | zero => rfl
  | succ n => exact backwardAux_congr m m' h1 h5 acts masks n _

lemma backward_set_l2 (m : MLPBinaryClassifier α) (lam : α) (acts : List (Mat α))
    (y : Mat α) (masks : List (Option (Mat α))) :
    backward { m with l2_lambda := lam } acts y masks = backward m acts y masks :=
  backward_congr { m with l2_lambda := lam } m rfl rfl acts y masks

lemma epochStep_epochs (m : MLPBinaryClassifier α) (logF : α → α)
    (Ue : ℕ → ℕ → ℕ → α) (X y : Mat α) (Xv yv : Option (Mat α)) :
    (epochStep m logF Ue X y Xv yv).epochs = m.epochs := by
  unfold epochStep
  cases Xv <;> cases yv <;> rfl

lemma epochStep_train_losses (m : MLPBinaryClassifier α) (logF : α → α)
    (Ue : ℕ → ℕ → ℕ → α) (X y : Mat α) (Xv yv : Option (Mat α)) :
    (epochStep m logF Ue X y Xv yv).train_losses =
      m.train_losses ++
        [binary_cross_entropy logF y (lastD (forward m Ue X true).1 []) +
          l2_penalty (postUpdate m Ue X y).weights m.l2_lambda] := by
  unfold epochStep
  cases Xv <;> cases yv <;> rfl

lemma epochStep_val_losses_some (m : MLPBinaryClassifier α) (logF : α → α)
    (Ue : ℕ → ℕ → ℕ → α) (X y Xv yv : Mat α) :
    (epochStep m logF Ue X y (some Xv) (some yv)).val_losses =
      m.val_losses ++
        [binary_cross_entropy logF yv
            (lastD (forward (postUpdate m Ue X y) Ue Xv false).1 []) +
          l2_penalty (postUpdate m Ue X y).weights m.l2_lambda] := by
  have hfw := forward_congr
    { postUpdate m Ue X y with
        train_losses := (postUpdate m Ue X y).train_losses ++
          [binary_cross_entropy logF y (lastD (forward m Ue X true).1 []) +
            l2_penalty (postUpdate m Ue X y).weights (postUpdate m Ue X y).l2_lambda] }
    (postUpdate m Ue X y) rfl rfl rfl rfl Ue Xv false
  simp only [epochStep]
  rw [hfw]
  rfl

lemma epochStep_val_losses_noneX (m : MLPBinaryClassifier α) (logF : α → α)
    (Ue : ℕ → ℕ → ℕ → α) (X y : Mat α) (yv : Option (Mat α)) :
    (epochStep m logF Ue X y none yv).val_losses = m.val_losses := by
  unfold epochStep
  cases yv <;> rfl

lemma epochStep_val_losses_noneY (m : MLPBinaryClassifier α) (logF : α → α)
    (Ue : ℕ → ℕ → ℕ → α) (X y : Mat α) (Xv : Option (Mat α)) :
    (epochStep m logF Ue X y Xv none).val_losses = m.val_losses := by
  unfold epochStep
  cases Xv <;> rfl

lemma trainEpochs_train_length (logF : α → α) (U : ℕ → ℕ → ℕ → ℕ → α)
    (X y : Mat α) (Xv yv : Option (Mat α)) :
    ∀ (k e : ℕ) (m : MLPBinaryClassifier α),
      (trainEpochs logF U X y Xv yv k e m).train_losses.length =
        m.train_losses.length + k := by
  intro k
  induction k with
  | zero => intro e m; rfl
  | succ k ih =>
    intro e m
    show (trainEpochs logF U X y Xv yv k (e + 1)
        (epochStep m logF (U e) X y Xv yv)).train_losses.length = _
    rw [ih, epochStep_train_losses]
    simp
    omega

lemma trainEpochs_val_length_some (logF : α → α) (U : ℕ → ℕ → ℕ → ℕ → α)
    (X y Xv yv : Mat α) :
    ∀ (k e : ℕ) (m : MLPBinaryClassifier α),
      (trainEpochs logF U X y (some Xv) (some yv) k e m).val_losses.length =
        m.val_losses.length + k := by
  intro k
  induction k with
  | zero => intro e m; rfl
  | succ k ih =>
    intro e m
    show (trainEpochs logF U X y (some Xv) (some yv) k (e + 1)
        (epochStep m logF (U e) X y (some Xv) (some yv))).val_losses.length = _
    rw [ih, epochStep_val_losses_some]
    simp
    omega

lemma trainEpochs_val_noneX (logF : α → α) (U : ℕ → ℕ → ℕ → ℕ → α)
    (X y : Mat α) (yv : Option (Mat α)) :
    ∀ (k e : ℕ) (m : MLPBinaryClassifier α),
      (trainEpochs logF U X y none yv k e m).val_losses = m.val_losses := by
  intro k
  induction k with
  | zero => intro e m; rfl
  | succ k ih =>
    intro e m
    show (trainEpochs logF U X y none yv k (e + 1)
        (epochStep m logF (U e) X y none yv)).val_losses = _
    rw [ih, epochStep_val_losses_noneX]

lemma trainEpochs_val_noneY (logF : α → α) (U : ℕ → ℕ → ℕ → ℕ → α)
    (X y : Mat α) (Xv : Option (Mat α)) :
    ∀ (k e : ℕ) (m : MLPBinaryClassifier α),
      (trainEpochs logF U X y Xv none k e m).val_losses = m.val_losses := by
  intro k
  induction k with
  | zero => intro e m; rfl
  | succ k ih =>
    intro e m
    show (trainEpochs logF U X y Xv none k (e + 1)
        (epochStep m logF (U e) X y Xv none)).val_losses = _
    rw [ih, epochStep_val_losses_noneY]

lemma range_map_getD {β : Type} (g : α → β) :
    ∀ (l : List α), (List.range l.length).map (fun j => g (l.getD j 0)) = l.map g := by
  intro l
  induction l with
  | nil => rfl
  | cons a l ih =>
    show (List.range (l.length + 1)).map (fun j => g ((a :: l).getD j 0)) = _
    rw [List.range_succ_eq_map, List.map_cons, List.map_map]
    have hcomp : ((fun j => g ((a :: l).getD j 0)) ∘ Nat.succ) =
        fun j => g (l.getD j 0) := by
      funext j
      rfl
    rw [hcomp, ih]
    rfl

lemma transposeM_single (x : List α) : transposeM [x] = x.map (fun v => [v]) := by
  unfold transposeM
  simp only [List.headD_cons, List.map_cons, List.map_nil]
  exact range_map_getD (fun v => [v]) x

lemma getD_map_inrange {β γ : Type} (f : β → γ) (d : γ) (d' : β) :
    ∀ (l : List β) (i : ℕ), i < l.length → (l.map f).getD i d = f (l.getD i d') := by
  intro l
  induction l with
  | nil => intro i h; simp at h
  | cons a l ih =>
    intro i h
    cases i with
    | zero => rfl
    | succ i => simpa using ih i (by simpa using h)

lemma getD_map2M_inrange (f : α → α → α) :
    ∀ (A B : Mat α) (r : ℕ), r < A.length → r < B.length →
      (map2M f A B).getD r [] = List.zipWith f (A.getD r []) (B.getD r []) := by
  intro A
  induction A with
  | nil => intro B r h _; simp at h
  | cons a As ih =>
    intro B r hA hB
    cases B with
    | nil => simp at hB
    | cons b Bs =>
      cases r with
      | zero => rfl
      | succ r =>
        simpa [map2M] using ih Bs r (by simpa using hA) (by simpa using hB)

lemma entry_matMap_inrange (f : α → α) (A : Mat α) (r c : ℕ)
    (hr : r < A.length) (hc : c < (A.getD r []).length) :
    entry (matMap f A) r c = f (entry A r c) := by
  unfold entry matMap
  rw [getD_map_inrange (fun row => row.map f) [] [] A r hr,
    getD_map_inrange f 0 0 (A.getD r []) c hc]

lemma entry_hadamard_inrange (A B : Mat α) (r c : ℕ)
    (hrA : r < A.length) (hrB : r < B.length)
    (hcA : c < (A.getD r []).length) (hcB : c < (B.getD r []).length) :
    entry (hadamard A B) r c = entry A r c * entry B r c := by
  unfold entry hadamard
  rw [getD_map2M_inrange (· * ·) A B r hrA hrB,
    getD_zipWith (· * ·) (A.getD r []) (B.getD r []) c hcA hcB]

lemma entry_bernMask_inrange (u : ℕ → ℕ → α) (rate : α) (A : Mat α) (r c : ℕ)
    (hr : r < A.length) (hc : c < (A.getD r []).length) :
    entry (bernMask u rate 0 A) r c = if rate < u r c then 1 else 0 := by
  unfold entry
  rw [bernMask_getD u rate A 0 r hr, maskRow_getD (u (0 + r)) rate (A.getD r []) 0 c hc]
  simp

lemma bernMask_row_length (u : ℕ → ℕ → α) (rate : α) (A : Mat α) (r : ℕ)
    (hr : r < A.length) :
    ((bernMask u rate 0 A).getD r []).length = (A.getD r []).length := by
  rw [bernMask_getD u rate A 0 r hr, maskRow_length]

lemma layerStep_snd_eq_some (m : MLPBinaryClassifier α) (U : ℕ → ℕ → ℕ → α)
    (tr : Bool) (i : ℕ) (A : Mat α) (msk : Mat α)
    (h : (layerStep m U tr i A).2 = some msk) :
    ∃ rate, m.dropout_rates[i]? = some rate ∧ 0 < rate ∧
      msk = bernMask (U i) rate 0 (layerLinAct m i A) ∧
      (layerStep m U tr i A).1 =
        matMap (fun v => v / (1 - rate))
          (hadamard (layerLinAct m i A) (bernMask (U i) rate 0 (layerLinAct m i A))) := by
  cases tr with
  | false => rw [layerStep_false] at h; simp at h
  | true =>
    cases hr : m.dropout_rates[i]? with
    | none => rw [layerStep_true_none m U i A hr] at h; simp at h
    | some rate =>
      by_cases hp : 0 < rate
      · rw [layerStep_true_pos m U i A rate hr hp] at h
        simp only [Option.some.injEq] at h
        refine ⟨rate, rfl, hp, h.symm, ?_⟩
        rw [layerStep_true_pos m U i A rate hr hp]
      · rw [layerStep_true_nonpos m U i A rate hr hp] at h
        simp at h

lemma resolveActs_ok_of_all (expF : α → α) :
    ∀ (names : List String),
      (∀ s ∈ names, ((ACTIVATIONS expF).lookup s).isSome) →
        ∃ p, resolveActs expF names = Except.ok p := by
  intro names
  induction names with
  | nil => intro _; exact ⟨([], []), rfl⟩
  | cons nm rest ih =>
    intro h
    have hnm := h nm (List.mem_cons_self nm rest)
    cases hl : (ACTIVATIONS expF).lookup nm with
    | none => rw [hl] at hnm; simp at hnm
    | some fd =>
      obtain ⟨p, hp⟩ := ih (fun s hs => h s (List.mem_cons_of_mem nm hs))
      exact ⟨(fd.1 :: p.1, fd.2 :: p.2), by simp [resolveActs, hl, hp]⟩

lemma resolveActs_mem_of_ok (expF : α → α) :
    ∀ (names : List String) (p : List (α → α) × List (α → α)),
      resolveActs expF names = Except.ok p →
        ∀ s ∈ names, ((ACTIVATIONS expF).lookup s).isSome := by
  intro names
  induction names with
  | nil => intro p _ s hs; simp at hs
  | cons nm rest ih =>
    intro p hp s hs
    unfold resolveActs at hp
    cases hl : (ACTIVATIONS expF).lookup nm with
    | none => rw [hl] at hp; simp at hp
    | some fd =>
      rw [hl] at hp
      cases hrest : resolveActs expF rest with
      | error e => rw [hrest] at hp; simp at hp
      | ok q =>
        rcases List.mem_cons.mp hs with h | h
        · rw [h, hl]; rfl
        · exact ih q hrest s h

lemma resolveActs_error_first (expF : α → α) :
    ∀ (pre : List String) (nm : String) (post : List String),
      (∀ s ∈ pre, ((ACTIVATIONS expF).lookup s).isSome) →
      (ACTIVATIONS expF).lookup nm = none →
        resolveActs expF (pre ++ nm :: post) = Except.error ("KeyError: " ++ nm) := by
  intro pre
  induction pre with
  | nil => intro nm post _ hnm; simp [resolveActs, hnm]
  | cons s pre ih =>
    intro nm post hpre hnm
    have hs := hpre s (List.mem_cons_self s pre)
    cases hl : (ACTIVATIONS expF).lookup s with
    | none => rw [hl] at hs; simp at hs
    | some fd =>
      have hrec := ih nm post (fun t ht => hpre t (List.mem_cons_of_mem s ht)) hnm
      simp [resolveActs, hl, hrec]

lemma resolveRates_replicate (hid : List ℕ) :
    resolveRates hid (some (List.replicate hid.length (0 : α))) =
      resolveRates hid (none : Option (List α)) := by
  cases hid <;> rfl

lemma resolveRates_replicate_eq (hid : List ℕ) :
    resolveRates hid (some (List.replicate hid.length (0 : α))) =
      List.replicate hid.length (0 : α) := by
  cases hid <;> rfl

lemma initNetwork_dr_congr (sz : ℕ) (hid : List ℕ) (anames : List String)
    (dr dr' : Option (List α)) (lr : α) (ep : ℕ) (lam : α) (expF : α → α)
    (G : ℕ → ℕ → ℕ → α) (hdr : resolveRates hid dr = resolveRates hid dr') :
    initNetwork sz hid anames dr lr ep lam expF G =
      initNetwork sz hid anames dr' lr ep lam expF G := by
  unfold initNetwork
  rw [hdr]

lemma initNetwork_ok_iff (sz : ℕ) (hid : List ℕ) (anames : List String)
    (dr : Option (List α)) (lr : α) (ep : ℕ) (lam : α) (expF : α → α)
    (G : ℕ → ℕ → ℕ → α) :
    (∃ mm, initNetwork sz hid anames dr lr ep lam expF G = Except.ok mm) ↔
      (anames.length = hid.length + 1 ∧
        ∀ s ∈ anames, ((ACTIVATIONS expF).lookup s).isSome) := by
  simp only [initNetwork]
  have hlen : (sz :: hid ++ [1]).length - 1 = hid.length + 1 := by
    simp
  rw [hlen]
  by_cases hc : anames.length = hid.length + 1
  · rw [if_neg (by simpa using hc)]
    cases hres : resolveActs expF anames with
    | error e =>
      constructor
      · rintro ⟨mm, hmm⟩
        exact absurd hmm (by simp)
      · rintro ⟨_, hall⟩
        obtain ⟨p, hp⟩ := resolveActs_ok_of_all expF anames hall
        rw [hp] at hres
        exact absurd hres (by simp)
    | ok p =>
      constructor
      · intro _
        exact ⟨hc, resolveActs_mem_of_ok expF anames p hres⟩
      · intro _
        exact ⟨_, rfl⟩
  · rw [if_pos hc]
    constructor
    · rintro ⟨mm, hmm⟩
      exact absurd hmm (by simp)
    · rintro ⟨h1, _⟩
      exact absurd h1 hc

lemma forward_logistic (m : MLPBinaryClassifier α) (expF : α → α)
    (U : ℕ → ℕ → ℕ → α) (tr : Bool) (x wcol : List α) (b0 : α)
    (hw : m.weights = [wcol.map (fun v => [v])])
    (hb : m.biases = [[b0]])
    (hf : m.activation_funcs = [sigmoid expF])
    (hr : ∀ r ∈ m.dropout_rates, ¬ (0 < r))
    (hne : wcol ≠ []) :
    forward m U [x] tr = ([[x], [[sigmoid expF (dot x wcol + b0)]]], [none]) := by
  have hlen : m.weights.length = 1 := by rw [hw]; rfl
  have htr : transposeM (wcol.map (fun v => [v])) = [wcol] := by
    obtain ⟨w0, ws, hwcol⟩ := List.exists_cons_of_ne_nil hne
    subst hwcol
    simp only [transposeM, List.map_map, List.headD_cons, List.length_cons,
      List.length_nil, Nat.zero_add, List.map_cons, List.map_nil,
      show List.range 1 = [0] from rfl, List.getD_cons_zero]
    have hcomp : ((fun row : List α => row.getD 0 0) ∘ fun v : α => [v]) =
        fun v : α => v := by
      funext v
      rfl
    rw [hcomp, List.map_id']
  have hmulx : matMul [x] (wcol.map (fun v => [v])) = [[dot x wcol]] := by
    unfold matMul
    rw [htr]
    rfl
  have hlin : layerLinAct m 0 [x] = [[sigmoid expF (dot x wcol + b0)]] := by
    unfold layerLinAct
    rw [hw, hb, hf]
    simp only [List.getD_cons_zero]
    rw [hmulx]
    simp [addBias, matMap]
  have hstep : layerStep m U tr 0 [x] = (layerLinAct m 0 [x], none) := by
    rw [layerStep_nonpos m hr U U tr false 0 [x], layerStep_false]
  have hloop : forwardLoop m U tr 1 0 [x] =
      ([(layerStep m U tr 0 [x]).1], [(layerStep m U tr 0 [x]).2]) := rfl
  unfold forward
  rw [hlen, hloop, hstep, hlin]

lemma backward_logistic_closed_form (m : MLPBinaryClassifier α) (expF : α → α)
    (U : ℕ → ℕ → ℕ → α) (tr : Bool) (x wcol : List α) (b0 y0 : α)
    (hw : m.weights = [wcol.map (fun v => [v])])
    (hb : m.biases = [[b0]])
    (hf : m.activation_funcs = [sigmoid expF])
    (hd : m.activation_derivatives = [sigmoidDerivative])
    (hr : ∀ r ∈ m.dropout_rates, ¬ (0 < r))
    (hne : wcol ≠ []) :
    (backward m (forward m U [x] tr).1 [[y0]] (forward m U [x] tr).2).1 =
      [x.map (fun xj => [xj *
        (((sigmoid expF (dot x wcol + b0) - y0) /
            ((sigmoid expF (dot x wcol + b0) * (1 - sigmoid expF (dot x wcol + b0))) +
              eps)) *
          (sigmoid expF (dot x wcol + b0) *
            (1 - sigmoid expF (dot x wcol + b0))))])] := by
  have hlen : m.weights.length = 1 := by rw [hw]; rfl
  have hfw := forward_logistic m expF U tr x wcol b0 hw hb hf hr hne
  have hbw : ∀ (acts : List (Mat α)) (masks : List (Option (Mat α))) (yy : Mat α),
      backward m acts yy masks = backwardAux m acts masks 0
        (hadamard (binary_cross_entropyDerivative yy (lastD acts []))
          (matMap (lastD m.activation_derivatives id) (lastD acts []))) := by
    intro acts masks yy
    unfold backward
    rw [hlen]
  rw [hfw, hbw, hd]
  simp [backwardAux, lastD, matMul, transposeM_single, dot,
    binary_cross_entropyDerivative, map2M, hadamard, matMap, sigmoidDerivative,
    List.map_map, Function.comp]

lemma initNetwork_ok_rates (sz : ℕ) (hid : List ℕ) (anames : List String)
    (dr : Option (List α)) (lr : α) (ep : ℕ) (lam : α) (expF : α → α)
    (G : ℕ → ℕ → ℕ → α) (m : MLPBinaryClassifier α)
    (h : initNetwork sz hid anames dr lr ep lam expF G = Except.ok m) :
    m.dropout_rates = resolveRates hid dr := by
  simp only [initNetwork] at h
  split at h
  · exact absurd h (by simp)
  · cases hres : resolveActs expF anames with
    | error e => rw [hres] at h; exact absurd h (by simp)
    | ok p =>
      rw [hres] at h
      simp only [Except.ok.injEq] at h
      rw [← h]

end Lemmas

/-- C1: for every network configuration, batch, and labels, the weight and
bias gradients returned by `backward` are independent of `l2_lambda` (the L2
penalty contributes nothing to them), while the train and validation losses
appended by an epoch of `train` each equal the ε-stabilised binary
cross-entropy plus `l2_penalty(weights, l2_lambda)` of the post-update
weights. -/
theorem C1_backward_no_l2 (m : MLPBinaryClassifier α) (lam : α)
    (logF : α → α) (Ue : ℕ → ℕ → ℕ → α) (acts : List (Mat α)) (X y Xv yv : Mat α)
    (masks : List (Option (Mat α))) :
    backward { m with l2_lambda := lam } acts y masks = backward m acts y masks ∧
    (epochStep m logF Ue X y (some Xv) (some yv)).train_losses =
      m.train_losses ++
        [binary_cross_entropy logF y (lastD (forward m Ue X true).1 []) +
          l2_penalty (postUpdate m Ue X y).weights m.l2_lambda] ∧
    (epochStep m logF Ue X y (some Xv) (some yv)).val_losses =
      m.val_losses ++
        [binary_cross_entropy logF yv
            (lastD (forward (postUpdate m Ue X y) Ue Xv false).1 []) +
          l2_penalty (postUpdate m Ue X y).weights m.l2_lambda] :=
  ⟨backward_set_l2 m lam acts y masks,
   epochStep_train_losses m logF Ue X y (some Xv) (some yv),
   epochStep_val_losses_some m logF Ue X y Xv yv⟩

/-- C6: `train` appends exactly one train-loss entry per epoch (`epochs`
entries in total), each equal to binary cross-entropy of the labels against
the final activation of the epoch's training-mode forward pass plus the L2
penalty of the post-update weights; a validation entry is appended in an
epoch iff both validation arrays are supplied, and is computed from a
`training=false` forward pass. -/
theorem C6_train_appends (m : MLPBinaryClassifier α) (logF : α → α)
    (U : ℕ → ℕ → ℕ → ℕ → α) (Ue : ℕ → ℕ → ℕ → α) (X y Xv yv : Mat α)
    (XvO yvO : Option (Mat α)) :
    (train m logF U X y XvO yvO).train_losses.length =
      m.train_losses.length + m.epochs ∧
    (train m logF U X y (some Xv) (some yv)).val_losses.length =
      m.val_losses.length + m.epochs ∧
    (train m logF U X y none yvO).val_losses = m.val_losses ∧
    (train m logF U X y XvO none).val_losses = m.val_losses ∧
    (epochStep m logF Ue X y XvO yvO).train_losses =
      m.train_losses ++
        [binary_cross_entropy logF y (lastD (forward m Ue X true).1 []) +
          l2_penalty (postUpdate m Ue X y).weights m.l2_lambda] ∧
    (epochStep m logF Ue X y (some Xv) (some yv)).val_losses =
      m.val_losses ++
        [binary_cross_entropy logF yv
            (lastD (forward (postUpdate m Ue X y) Ue Xv false).1 []) +
          l2_penalty (postUpdate m Ue X y).weights m.l2_lambda] :=
  ⟨trainEpochs_train_length logF U X y XvO yvO m.epochs 0 m,
   trainEpochs_val_length_some logF U X y Xv yv m.epochs 0 m,
   trainEpochs_val_noneX logF U X y yvO m.epochs 0 m,
   trainEpochs_val_noneY logF U X y XvO m.epochs 0 m,
   epochStep_train_losses m logF Ue X y XvO yvO,
   epochStep_val_losses_some m logF Ue X y Xv yv⟩

/-- C7: `predict` runs the forward pass in non-training mode (so its output
is independent of the dropout randomness), produces one label row per input
row, every label is 0 or 1, and an entry whose final activation equals
exactly 0.5 is always classified as 0 (the threshold `> 0.5` is strict). -/
theorem C7_predict_threshold (m : MLPBinaryClassifier α) (U U' : ℕ → ℕ → ℕ → α)
    (X : Mat α) :
    (predict m U X).length = X.length ∧
    (∀ row ∈ predict m U X, ∀ v ∈ row, v = 0 ∨ v = 1) ∧
    predict m U X = predict m U' X ∧
    (∀ r c, entry (lastD (forward m U X false).1 []) r c = 1 / 2 →
      ((predict m U X).getD r []).getD c 0 = 0) := by
  refine ⟨?_, ?_, ?_, ?_⟩
  · unfold predict
    rw [List.length_map]
    exact forward_final_rows m U X false
  · intro row hrow v hv
    unfold predict at hrow
    obtain ⟨row0, _, hrow0⟩ := List.mem_map.mp hrow
    rw [← hrow0] at hv
    obtain ⟨v0, _, hv0⟩ := List.mem_map.mp hv
    rw [← hv0]
    by_cases hlt : (1 : α) / 2 < v0
    · right; exact if_pos hlt
    · left; exact if_neg hlt
  · unfold predict
    rw [forward_false_U m U U' X]
  · intro r c h
    unfold predict
    unfold entry at h
    by_cases hr : r < (lastD (forward m U X false).1 []).length
    · have h1 : ((lastD (forward m U X false).1 []).map
          (fun row => row.map (fun v => if (1 : α) / 2 < v then (1 : ℕ) else 0))).getD r [] =
          ((lastD (forward m U X false).1 []).getD r []).map
            (fun v => if (1 : α) / 2 < v then (1 : ℕ) else 0) :=
        getD_map_inrange _ [] [] _ r hr
      rw [h1]
      by_cases hc : c < ((lastD (forward m U X false).1 []).getD r []).length
      · have h2 : (((lastD (forward m U X false).1 []).getD r []).map
            (fun v => if (1 : α) / 2 < v then (1 : ℕ) else 0)).getD c 0 =
            if (1 : α) / 2 < ((lastD (forward m U X false).1 []).getD r []).getD c 0
              then (1 : ℕ) else 0 :=
          getD_map_inrange _ 0 0 _ c hc
        rw [h2, h]
        exact if_neg (lt_irrefl ((1 : α) / 2))
      · exact List.getD_eq_default _ _ (by rw [List.length_map]; omega)
    · have h1 : ((lastD (forward m U X false).1 []).map
          (fun row => row.map (fun v => if (1 : α) / 2 < v then (1 : ℕ) else 0))).getD r [] =
          [] :=
        List.getD_eq_default _ _ (by rw [List.length_map]; omega)
      rw [h1]
      rfl

/-- Witness for C7: a zero-hidden-layer sigmoid model whose output is
exactly 0.5 is classified as 0. -/
theorem C7_predict_threshold_witness :
    entry (lastD (forward mSQ (fun _ _ _ => 0) [[3]] false).1 []) 0 0 = 1 / 2 ∧
    ((predict mSQ (fun _ _ _ => 0) [[3]]).length = [[(3 : ℚ)]].length ∧
     (∀ row ∈ predict mSQ (fun _ _ _ => 0) [[3]], ∀ v ∈ row, v = 0 ∨ v = 1) ∧
     predict mSQ (fun _ _ _ => 0) [[3]] = predict mSQ (fun _ _ _ => 1) [[3]] ∧
     ((predict mSQ (fun _ _ _ => 0) [[3]]).getD 0 []).getD 0 0 = 0) := by
  have h : entry (lastD (forward mSQ (fun _ _ _ => 0) [[3]] false).1 []) 0 0 = 1 / 2 := by
    norm_num [mSQ, forward, forwardLoop, layerStep, layerLinAct, matMul, transposeM,
      dot, addBias, matMap, sigmoid, lastD, entry, List.range_succ]
  obtain ⟨h1, h2, h3, h4⟩ :=
    C7_predict_threshold mSQ (fun _ _ _ => 0) (fun _ _ _ => 1) [[3]]
  exact ⟨h, h1, h2, h3, h4 0 0 h⟩

/-- C3: when the matching training-mode forward pass recorded a dropout mask
for layer `i`, the backward propagation step through layer `i + 1` multiplies
the propagated, derivative-weighted delta elementwise by exactly that mask —
a 0/1 matrix, with no `1/(1-rate)` rescaling — so the resulting delta is zero
wherever the mask is zero. -/
theorem C3_backward_reuses_mask (m : MLPBinaryClassifier α) (U : ℕ → ℕ → ℕ → α)
    (X delta : Mat α) (i : ℕ) (msk : Mat α)
    (h : (forward m U X true).2.getD i none = some msk) :
    propagateDelta m (forward m U X true).1 (forward m U X true).2 (i + 1) delta =
      hadamard (hadamard (matMul delta (transposeM (m.weights.getD (i + 1) [])))
        (matMap (m.activation_derivatives.getD i id)
          ((forward m U X true).1.getD (i + 1) []))) msk ∧
    (∀ r c, entry msk r c = 0 ∨ entry msk r c = 1) ∧
    (∀ r c, entry msk r c = 0 →
      entry (propagateDelta m (forward m U X true).1 (forward m U X true).2
        (i + 1) delta) r c = 0) := by
  have h1 := propagateDelta_some m (forward m U X true).1 (forward m U X true).2 i delta msk h
  refine ⟨h1, ?_, ?_⟩
  · have hlen : i < (forward m U X true).2.length := by
      by_contra hge
      rw [List.getD_eq_default _ _ (by omega)] at h
      exact absurd h (by simp)
    rw [forward_snd_length] at hlen
    have hmg := forward_mask_get m U X true i hlen
    have hsome : (layerStep m U true i ((forward m U X true).1.getD i [])).2 = some msk := by
      rw [List.getD_eq_getElem?_getD, hmg] at h
      simpa using h
    obtain ⟨rate, _, _, hmsk, _⟩ := layerStep_snd_eq_some m U true i _ msk hsome
    intro r c
    rw [hmsk]
    exact entry_bernMask_01 _ rate _ 0 r c
  · intro r c hz
    rw [h1]
    exact entry_hadamard_zero _ msk r c hz

/-- Witness for C3: the one-hidden-layer dropout model records mask `[[1]]`
for its hidden layer, and the backward step consumes exactly it. -/
theorem C3_backward_reuses_mask_witness :
    (forward mD1Q (fun _ _ _ => 1) [[1]] true).2.getD 0 none = some [[1]] ∧
    (propagateDelta mD1Q (forward mD1Q (fun _ _ _ => 1) [[1]] true).1
        (forward mD1Q (fun _ _ _ => 1) [[1]] true).2 (0 + 1) [[1]] =
      hadamard (hadamard (matMul [[1]] (transposeM (mD1Q.weights.getD (0 + 1) [])))
        (matMap (mD1Q.activation_derivatives.getD 0 id)
          ((forward mD1Q (fun _ _ _ => 1) [[1]] true).1.getD (0 + 1) []))) [[1]] ∧
     (∀ r c, entry ([[1]] : Mat ℚ) r c = 0 ∨ entry ([[1]] : Mat ℚ) r c = 1) ∧
     (∀ r c, entry ([[1]] : Mat ℚ) r c = 0 →
       entry (propagateDelta mD1Q (forward mD1Q (fun _ _ _ => 1) [[1]] true).1
         (forward mD1Q (fun _ _ _ => 1) [[1]] true).2 (0 + 1) [[1]]) r c = 0)) := by
  have h : (forward mD1Q (fun _ _ _ => 1) [[1]] true).2.getD 0 none = some [[1]] := by
    norm_num [mD1Q, forward, forwardLoop, layerStep, layerLinAct, matMul, transposeM,
      dot, addBias, matMap, relu, bernMask, maskRow, List.range_succ]
  exact ⟨h, C3_backward_reuses_mask mD1Q (fun _ _ _ => 1) [[1]] [[1]] 0 [[1]] h⟩

/-- C8: construction fails exactly when the activation count differs from
the hidden-layer count plus one or some activation name is missing from the
registry; with a correct count, the first unknown name produces a `KeyError`
naming that activation, a wrong count produces the count error, and both
"sigmoid" and "relu" are registered. -/
theorem C8_construction_errors (sz : ℕ) (hid : List ℕ) (anames : List String)
    (dr : Option (List α)) (lr : α) (ep : ℕ) (lam : α) (expF : α → α)
    (G : ℕ → ℕ → ℕ → α) :
    ((∃ mm, initNetwork sz hid anames dr lr ep lam expF G = Except.ok mm) ↔
      (anames.length = hid.length + 1 ∧
        ∀ s ∈ anames, ((ACTIVATIONS expF).lookup s).isSome)) ∧
    (∀ (pre post : List String) (nm : String), anames = pre ++ nm :: post →
      (∀ s ∈ pre, ((ACTIVATIONS expF).lookup s).isSome) →
      ((ACTIVATIONS expF).lookup nm) = none →
      anames.length = hid.length + 1 →
      initNetwork sz hid anames dr lr ep lam expF G =
        Except.error ("KeyError: " ++ nm)) ∧
    (anames.length ≠ hid.length + 1 →
      initNetwork sz hid anames dr lr ep lam expF G =
        Except.error "# activation functions != # layers") ∧
    ((ACTIVATIONS expF).lookup "sigmoid").isSome ∧
    ((ACTIVATIONS expF).lookup "relu").isSome := by
  refine ⟨initNetwork_ok_iff sz hid anames dr lr ep lam expF G, ?_, ?_, rfl, rfl⟩
  · intro pre post nm hsplit hpre hnm hcnt
    simp only [initNetwork]
    rw [if_neg (by simpa using hcnt)]
    rw [hsplit, resolveActs_error_first expF pre nm post hpre hnm]
  · intro hcnt
    simp only [initNetwork]
    rw [if_pos (by simpa using hcnt)]

/-- Witness for C8: an unknown activation name fails construction with a
`KeyError` naming it. -/
theorem C8_construction_errors_witness :
    initNetwork 1 [] ["tanh"] none (1 : ℚ) 1 0 (fun _ => 1) (fun _ _ _ => 0) =
      Except.error "KeyError: tanh" :=
  (C8_construction_errors 1 [] ["tanh"] none (1 : ℚ) 1 0 (fun _ => 1)
      (fun _ _ _ => 0)).2.1 [] [] "tanh" rfl (by simp) rfl rfl

/-- C10: construction never fails because of the dropout-rate argument (any
list is accepted and an empty list behaves like an absent one), and in a
training-mode forward pass a mask is drawn for layer `i` exactly when
`dropout_rates[i]` exists and is positive — so a rate list with one entry per
layer transition puts dropout on the output layer. -/
theorem C10_dropout_arg_tolerated (sz : ℕ) (hid : List ℕ) (anames : List String)
    (dr dr' : Option (List α)) (lr : α) (ep : ℕ) (lam : α) (expF : α → α)
    (G : ℕ → ℕ → ℕ → α) (m : MLPBinaryClassifier α) (U : ℕ → ℕ → ℕ → α)
    (X : Mat α) :
    ((∃ mm, initNetwork sz hid anames dr lr ep lam expF G = Except.ok mm) ↔
      (∃ mm, initNetwork sz hid anames dr' lr ep lam expF G = Except.ok mm)) ∧
    initNetwork sz hid anames (some ([] : List α)) lr ep lam expF G =
      initNetwork sz hid anames none lr ep lam expF G ∧
    (∀ i, i < m.weights.length →
      (((forward m U X true).2.getD i none ≠ none) ↔
        ∃ rate, m.dropout_rates[i]? = some rate ∧ 0 < rate)) ∧
    (m.dropout_rates.length = m.weights.length → m.weights ≠ [] →
      0 < lastD m.dropout_rates 0 →
      (forward m U X true).2.getD (m.weights.length - 1) none ≠ none) := by
  refine ⟨?_, ?_, ?_, ?_⟩
  · rw [initNetwork_ok_iff, initNetwork_ok_iff]
  · exact initNetwork_dr_congr sz hid anames (some []) none lr ep lam expF G rfl
  · intro i hi
    have hmg := forward_mask_get m U X true i hi
    rw [List.getD_eq_getElem?_getD, hmg]
    simp only [Option.getD_some]
    exact layerStep_mask_iff m U i _
  · intro hrl hne hlast
    have hpos : 0 < m.weights.length := List.length_pos.mpr hne
    have hi' : m.weights.length - 1 < m.weights.length := by omega
    have hmg := forward_mask_get m U X true (m.weights.length - 1) hi'
    rw [List.getD_eq_getElem?_getD, hmg]
    simp only [Option.getD_some]
    rw [layerStep_mask_iff]
    have hlt : m.weights.length - 1 < m.dropout_rates.length := by omega
    have hval : lastD m.dropout_rates 0 = m.dropout_rates[m.weights.length - 1] := by
      rw [lastD, hrl, List.getD_eq_getElem?_getD, List.getElem?_eq_getElem hlt,
        Option.getD_some]
    refine ⟨lastD m.dropout_rates 0, ?_, hlast⟩
    rw [List.getElem?_eq_getElem hlt, hval]

/-- Witness for C10: a zero-hidden-layer model whose single dropout entry is
1/2 draws a mask on its (output) layer, and an over-long dropout list is
accepted by construction. -/
theorem C10_dropout_arg_tolerated_witness :
    ((∃ mm, initNetwork 1 [] ["relu"] (some [1 / 2, 1 / 3]) (1 : ℚ) 1 0
          (fun _ => 1) (fun _ _ _ => 0) = Except.ok mm) ↔
      (∃ mm, initNetwork 1 [] ["relu"] none (1 : ℚ) 1 0
          (fun _ => 1) (fun _ _ _ => 0) = Except.ok mm)) ∧
    initNetwork 1 [] ["relu"] (some ([] : List ℚ)) (1 : ℚ) 1 0
        (fun _ => 1) (fun _ _ _ => 0) =
      initNetwork 1 [] ["relu"] none (1 : ℚ) 1 0 (fun _ => 1) (fun _ _ _ => 0) ∧
    (((forward mD0Q (fun _ _ _ => 1) [[1]] true).2.getD 0 none ≠ none) ↔
      ∃ rate, mD0Q.dropout_rates[0]? = some rate ∧ 0 < rate) ∧
    (forward mD0Q (fun _ _ _ => 1) [[1]] true).2.getD
      (mD0Q.weights.length - 1) none ≠ none := by
  have hlast : 0 < lastD mD0Q.dropout_rates 0 := by
    norm_num [mD0Q, lastD]
  obtain ⟨h1, h2, h3, h4⟩ :=
    C10_dropout_arg_tolerated 1 [] ["relu"] (some [1 / 2, 1 / 3]) none (1 : ℚ) 1 0
      (fun _ => 1) (fun _ _ _ => 0) mD0Q (fun _ _ _ => 1) [[1]]
  exact ⟨h1, h2, h3 0 (by decide), h4 (by decide) (by decide) hlast⟩

/-- C9: for the same random initialisation, a model constructed with dropout
rate 0 for every hidden layer produces forward outputs identical to those of
a model constructed with no dropout configuration at all, in both training
and non-training mode; moreover its training-mode and inference-mode forward
passes coincide for any dropout randomness. -/
theorem C9_zero_dropout_equiv (sz : ℕ) (hid : List ℕ) (anames : List String)
    (lr : α) (ep : ℕ) (lam : α) (expF : α → α) (G : ℕ → ℕ → ℕ → α)
    (m0 mN : MLPBinaryClassifier α)
    (h0 : initNetwork sz hid anames (some (List.replicate hid.length 0)) lr ep lam
      expF G = Except.ok m0)
    (hN : initNetwork sz hid anames none lr ep lam expF G = Except.ok mN)
    (U U' : ℕ → ℕ → ℕ → α) (X : Mat α) (tr tr' : Bool) :
    forward m0 U X tr = forward mN U X tr ∧
    forward m0 U X tr = forward m0 U' X tr' := by
  have heq : initNetwork sz hid anames (some (List.replicate hid.length (0 : α)))
      lr ep lam expF G = initNetwork sz hid anames none lr ep lam expF G :=
    initNetwork_dr_congr sz hid anames _ none lr ep lam expF G
      (resolveRates_replicate hid)
  have hrates : m0.dropout_rates = List.replicate hid.length 0 := by
    rw [initNetwork_ok_rates sz hid anames _ lr ep lam expF G m0 h0,
      resolveRates_replicate_eq]
  constructor
  · have hm : m0 = mN := by
      rw [heq, hN] at h0
      exact ((Except.ok.injEq mN m0).mp h0).symm
    rw [hm]
  · apply forward_nonpos
    intro r hr
    rw [hrates] at hr
    rw [List.eq_of_mem_replicate hr]
    exact lt_irrefl 0

/-- Witness for C9: the concrete constructed model `mRQ` arises both from an
explicit all-zero dropout list and from an absent one, and its forward passes
agree across modes. -/
theorem C9_zero_dropout_equiv_witness :
    initNetwork 1 [1] ["relu", "relu"]
        (some (List.replicate (List.length [1]) (0 : ℚ))) (1 / 100 : ℚ) 1000
        (1 / 1000) (fun _ => 1) (fun _ _ _ => 0) = Except.ok mRQ ∧
    (forward mRQ (fun _ _ _ => 0) [[1]] true =
        forward mRQ (fun _ _ _ => 0) [[1]] true ∧
      forward mRQ (fun _ _ _ => 0) [[1]] true =
        forward mRQ (fun _ _ _ => 1) [[1]] false) := by
  have h0 : initNetwork 1 [1] ["relu", "relu"]
      (some (List.replicate (List.length [1]) (0 : ℚ))) (1 / 100 : ℚ) 1000
      (1 / 1000) (fun _ => 1) (fun _ _ _ => 0) = Except.ok mRQ := rfl
  have hN : initNetwork 1 [1] ["relu", "relu"] none (1 / 100 : ℚ) 1000
      (1 / 1000) (fun _ => 1) (fun _ _ _ => 0) = Except.ok mRQ := rfl
  exact ⟨h0, C9_zero_dropout_equiv 1 [1] ["relu", "relu"] (1 / 100) 1000 (1 / 1000)
    (fun _ => 1) (fun _ _ _ => 0) mRQ mRQ h0 hN (fun _ _ _ => 0) (fun _ _ _ => 1)
    [[1]] true false⟩

/-- C4: in a training-mode forward pass of a well-formed model, a hidden
layer `i` with positive dropout rate applies inverted dropout — the recorded
mask is the 0/1 Bernoulli matrix drawn from the uniform stream, dropped
entries of the activation become 0, kept entries are divided by `1 - rate` —
and the final (output) layer records no mask and is the bare
linear/activation step. -/
theorem C4_inverted_dropout (m : MLPBinaryClassifier α) (U : ℕ → ℕ → ℕ → α)
    (X : Mat α) (i : ℕ) (rate : α) (A2 : Mat α)
    (hw : m.weights.length = m.hidden_layers.length + 1)
    (hi : i < m.hidden_layers.length)
    (hrl : m.dropout_rates.length = m.hidden_layers.length)
    (hrate : m.dropout_rates[i]? = some rate) (hpos : 0 < rate)
    (hA2 : A2 = layerLinAct m i ((forward m U X true).1.getD i [])) :
    (forward m U X true).2.getD i none = some (bernMask (U i) rate 0 A2) ∧
    (forward m U X true).1.getD (i + 1) [] =
      matMap (fun v => v / (1 - rate)) (hadamard A2 (bernMask (U i) rate 0 A2)) ∧
    (∀ r c, entry (bernMask (U i) rate 0 A2) r c = 0 ∨
      entry (bernMask (U i) rate 0 A2) r c = 1) ∧
    (∀ r c, r < A2.length → c < (A2.getD r []).length →
      (rate < U i r c →
        entry ((forward m U X true).1.getD (i + 1) []) r c =
          entry A2 r c / (1 - rate)) ∧
      (¬ rate < U i r c →
        entry ((forward m U X true).1.getD (i + 1) []) r c = 0)) ∧
    (forward m U X true).2.getD m.hidden_layers.length none = none ∧
    (forward m U X true).1.getD (m.hidden_layers.length + 1) [] =
      layerLinAct m m.hidden_layers.length
        ((forward m U X true).1.getD m.hidden_layers.length []) := by
  have hi' : i < m.weights.length := by omega
  have hmg := forward_mask_get m U X true i hi'
  have hcs := forward_cache_succ m U X true i hi'
  have hstep := layerStep_true_pos m U i ((forward m U X true).1.getD i []) rate
    hrate hpos
  have hmask : (forward m U X true).2.getD i none = some (bernMask (U i) rate 0 A2) := by
    rw [List.getD_eq_getElem?_getD, hmg, hstep, hA2]
    rfl
  have hcache : (forward m U X true).1.getD (i + 1) [] =
      matMap (fun v => v / (1 - rate)) (hadamard A2 (bernMask (U i) rate 0 A2)) := by
    rw [List.getD_eq_getElem?_getD, hcs, hstep, hA2]
    rfl
  refine ⟨hmask, hcache, ?_, ?_, ?_, ?_⟩
  · intro r c
    exact entry_bernMask_01 (U i) rate A2 0 r c
  · intro r c hr hc
    have hlenB : r < (bernMask (U i) rate 0 A2).length := by
      rw [bernMask_length]; exact hr
    have hrowB : c < ((bernMask (U i) rate 0 A2).getD r []).length := by
      rw [bernMask_row_length (U i) rate A2 r hr]; exact hc
    have hlenH : r < (hadamard A2 (bernMask (U i) rate 0 A2)).length := by
      unfold hadamard map2M
      rw [List.length_zipWith, bernMask_length]
      omega
    have hrowH : c < ((hadamard A2 (bernMask (U i) rate 0 A2)).getD r []).length := by
      unfold hadamard
      rw [getD_map2M_inrange (· * ·) A2 (bernMask (U i) rate 0 A2) r hr hlenB,
        List.length_zipWith, bernMask_row_length (U i) rate A2 r hr]
      omega
    have hentry : entry ((forward m U X true).1.getD (i + 1) []) r c =
        (entry A2 r c * (if rate < U i r c then 1 else 0)) / (1 - rate) := by
      rw [hcache,
        entry_matMap_inrange (fun v => v / (1 - rate)) _ r c hlenH hrowH,
        entry_hadamard_inrange A2 _ r c hr hlenB hc hrowB,
        entry_bernMask_inrange (U i) rate A2 r c hr hc]
    constructor
    · intro hkeep
      rw [hentry, if_pos hkeep, mul_one]
    · intro hdrop
      rw [hentry, if_neg hdrop, mul_zero, zero_div]
  · have hL : m.hidden_layers.length < m.weights.length := by omega
    have hmgL := forward_mask_get m U X true m.hidden_layers.length hL
    have hnone : m.dropout_rates[m.hidden_layers.length]? = none :=
      List.getElem?_eq_none (by omega)
    rw [List.getD_eq_getElem?_getD, hmgL,
      layerStep_true_none m U m.hidden_layers.length _ hnone]
    rfl
  · have hL : m.hidden_layers.length < m.weights.length := by omega
    have hcsL := forward_cache_succ m U X true m.hidden_layers.length hL
    have hnone : m.dropout_rates[m.hidden_layers.length]? = none :=
      List.getElem?_eq_none (by omega)
    rw [List.getD_eq_getElem?_getD, hcsL,
      layerStep_true_none m U m.hidden_layers.length _ hnone]
    rfl

/-- Witness for C4: the dropout layer of `mD1Q` at rate 1/2, keep-draw 1. -/
theorem C4_inverted_dropout_witness :
    (mD1Q.weights.length = mD1Q.hidden_layers.length + 1 ∧
     0 < mD1Q.hidden_layers.length ∧
     mD1Q.dropout_rates.length = mD1Q.hidden_layers.length ∧
     mD1Q.dropout_rates[0]? = some (1 / 2 : ℚ) ∧ (0 : ℚ) < 1 / 2 ∧
     ([[0]] : Mat ℚ) = layerLinAct mD1Q 0
       ((forward mD1Q (fun _ _ _ => 1) [[1]] true).1.getD 0 [])) ∧
    ((forward mD1Q (fun _ _ _ => 1) [[1]] true).2.getD 0 none =
       some (bernMask (fun _ _ => (1 : ℚ)) (1 / 2) 0 [[0]]) ∧
     (forward mD1Q (fun _ _ _ => 1) [[1]] true).1.getD (0 + 1) [] =
       matMap (fun v => v / (1 - (1 / 2 : ℚ)))
         (hadamard [[0]] (bernMask (fun _ _ => (1 : ℚ)) (1 / 2) 0 [[0]])) ∧
     (∀ r c, entry (bernMask (fun _ _ => (1 : ℚ)) (1 / 2) 0 [[0]]) r c = 0 ∨
       entry (bernMask (fun _ _ => (1 : ℚ)) (1 / 2) 0 [[0]]) r c = 1) ∧
     (∀ r c, r < ([[0]] : Mat ℚ).length → c < (([[0]] : Mat ℚ).getD r []).length →
       ((1 / 2 : ℚ) < 1 →
         entry ((forward mD1Q (fun _ _ _ => 1) [[1]] true).1.getD (0 + 1) []) r c =
           entry ([[0]] : Mat ℚ) r c / (1 - 1 / 2)) ∧
       (¬ (1 / 2 : ℚ) < 1 →
         entry ((forward mD1Q (fun _ _ _ => 1) [[1]] true).1.getD (0 + 1) []) r c = 0)) ∧
     (forward mD1Q (fun _ _ _ => 1) [[1]] true).2.getD mD1Q.hidden_layers.length
       none = none ∧
     (forward mD1Q (fun _ _ _ => 1) [[1]] true).1.getD
         (mD1Q.hidden_layers.length + 1) [] =
       layerLinAct mD1Q mD1Q.hidden_layers.length
         ((forward mD1Q (fun _ _ _ => 1) [[1]] true).1.getD
           mD1Q.hidden_layers.length [])) := by
  have hA2 : ([[0]] : Mat ℚ) = layerLinAct mD1Q 0
      ((forward mD1Q (fun _ _ _ => 1) [[1]] true).1.getD 0 []) := by
    norm_num [mD1Q, forward, forwardLoop, layerStep, layerLinAct, matMul, transposeM,
      addBias, matMap, dot, relu, bernMask, maskRow, List.range_succ, max_self]
  have hpos : (0 : ℚ) < 1 / 2 := by norm_num
  exact ⟨⟨by decide, by decide, by decide, rfl, hpos, hA2⟩,
    C4_inverted_dropout mD1Q (fun _ _ _ => 1) [[1]] 0 (1 / 2) [[0]]
      (by decide) (by decide) (by decide) rfl hpos hA2⟩

/-- C5 (amended): `forward` returns one dropout-mask entry per weight matrix
— the hidden-layer count plus one for a well-formed model, not the
hidden-layer count — while the activation cache holds the input at index 0,
one entry per layer, and the final layer's output last. -/
theorem C5_cache_and_mask_shape (m : MLPBinaryClassifier α) (U : ℕ → ℕ → ℕ → α)
    (X : Mat α) (tr : Bool) (hne : m.weights ≠ []) :
    (forward m U X tr).2.length = m.weights.length ∧
    (forward m U X tr).1.length = m.weights.length + 1 ∧
    (forward m U X tr).1.getD 0 [] = X ∧
    lastD (forward m U X tr).1 [] =
      (layerStep m U tr (m.weights.length - 1)
        ((forward m U X tr).1.getD (m.weights.length - 1) [])).1 ∧
    (m.weights.length = m.hidden_layers.length + 1 →
      (forward m U X tr).2.length = m.hidden_layers.length + 1) := by
  have hpos : 0 < m.weights.length := List.length_pos.mpr hne
  refine ⟨forward_snd_length m U X tr, forward_fst_length m U X tr, rfl, ?_, ?_⟩
  · have hcs := forward_cache_succ m U X tr (m.weights.length - 1) (by omega)
    have harith : m.weights.length - 1 + 1 = m.weights.length := by omega
    rw [harith] at hcs
    rw [lastD, forward_fst_length, Nat.add_sub_cancel,
      List.getD_eq_getElem?_getD, hcs]
    rfl
  · intro hw
    rw [forward_snd_length, hw]

/-- Witness for C5's amended statement, at the concrete model `mRQ`. -/
theorem C5_cache_and_mask_shape_witness :
    mRQ.weights ≠ [] ∧
    ((forward mRQ (fun _ _ _ => 0) [[1]] false).2.length = mRQ.weights.length ∧
     (forward mRQ (fun _ _ _ => 0) [[1]] false).1.length = mRQ.weights.length + 1 ∧
     (forward mRQ (fun _ _ _ => 0) [[1]] false).1.getD 0 [] = [[1]] ∧
     lastD (forward mRQ (fun _ _ _ => 0) [[1]] false).1 [] =
       (layerStep mRQ (fun _ _ _ => 0) false (mRQ.weights.length - 1)
         ((forward mRQ (fun _ _ _ => 0) [[1]] false).1.getD
           (mRQ.weights.length - 1) [])).1 ∧
     (mRQ.weights.length = mRQ.hidden_layers.length + 1 →
       (forward mRQ (fun _ _ _ => 0) [[1]] false).2.length =
         mRQ.hidden_layers.length + 1)) :=
  ⟨by decide, C5_cache_and_mask_shape mRQ (fun _ _ _ => 0) [[1]] false (by decide)⟩

/-- Counterexample for C5 as stated: a constructed model with one hidden
layer returns a mask list of length 2 (one entry per layer transition), not
of length 1 (the hidden-layer count). -/
theorem C5_counterexample :
    initNetwork 1 [1] ["relu", "relu"] none (1 / 100 : ℚ) 1000 (1 / 1000)
        (fun _ => 1) (fun _ _ _ => 0) = Except.ok mRQ ∧
    ¬ (forward mRQ (fun _ _ _ => 0) [[1]] false).2.length =
        mRQ.hidden_layers.length := by
  exact ⟨rfl, by decide⟩

/-- C2 (amended): for a zero-hidden-layer sigmoid model with zero dropout
and a single-example batch, the weight gradient computed by `backward` on
the forward cache equals the closed-form logistic-regression gradient
`Xᵗ(a - y)` scaled elementwise by the ε-stabilisation factor
`a(1-a) / (a(1-a) + 1e-8)` — and it is not divided by the batch size. -/
theorem C2_logistic_gradient (m : MLPBinaryClassifier α) (expF : α → α)
    (U : ℕ → ℕ → ℕ → α) (tr : Bool) (x wcol : List α) (b0 y0 : α)
    (hw : m.weights = [wcol.map (fun v => [v])])
    (hb : m.biases = [[b0]])
    (hf : m.activation_funcs = [sigmoid expF])
    (hd : m.activation_derivatives = [sigmoidDerivative])
    (hr : ∀ r ∈ m.dropout_rates, ¬ (0 < r))
    (hne : wcol ≠ []) :
    (backward m (forward m U [x] tr).1 [[y0]] (forward m U [x] tr).2).1 =
      [x.map (fun xj => [xj *
        (((sigmoid expF (dot x wcol + b0) - y0) /
            ((sigmoid expF (dot x wcol + b0) * (1 - sigmoid expF (dot x wcol + b0))) +
              eps)) *
          (sigmoid expF (dot x wcol + b0) *
            (1 - sigmoid expF (dot x wcol + b0))))])] :=
  backward_logistic_closed_form m expF U tr x wcol b0 y0 hw hb hf hd hr hne

/-- Witness for C2's amended statement: the concrete model `mSQ`. -/
theorem C2_logistic_gradient_witness :
    (mSQ.weights = [([0] : List ℚ).map (fun v => [v])] ∧
     mSQ.biases = [[0]] ∧
     mSQ.activation_funcs = [sigmoid (fun _ => 1)] ∧
     mSQ.activation_derivatives = [sigmoidDerivative] ∧
     (∀ r ∈ mSQ.dropout_rates, ¬ ((0 : ℚ) < r)) ∧
     ([0] : List ℚ) ≠ []) ∧
    (backward mSQ (forward mSQ (fun _ _ _ => 0) [[1]] false).1 [[1]]
        (forward mSQ (fun _ _ _ => 0) [[1]] false).2).1 =
      [([1] : List ℚ).map (fun xj => [xj *
        (((sigmoid (fun _ => (1 : ℚ)) (dot [1] [0] + 0) - 1) /
            ((sigmoid (fun _ => (1 : ℚ)) (dot [1] [0] + 0) *
                (1 - sigmoid (fun _ => (1 : ℚ)) (dot [1] [0] + 0))) + eps)) *
          (sigmoid (fun _ => (1 : ℚ)) (dot [1] [0] + 0) *
            (1 - sigmoid (fun _ => (1 : ℚ)) (dot [1] [0] + 0))))])] := by
  have hr : ∀ r ∈ mSQ.dropout_rates, ¬ ((0 : ℚ) < r) := by
    intro r hrm
    simp only [mSQ, List.mem_singleton] at hrm
    rw [hrm]
    exact lt_irrefl 0
  exact ⟨⟨rfl, rfl, rfl, rfl, hr, by simp⟩,
    C2_logistic_gradient mSQ (fun _ => 1) (fun _ _ _ => 0) false [1] [0] 0 1
      rfl rfl rfl rfl hr (by simp)⟩

/-- Counterexample for C2 as stated: over ℝ with the real exponential, at
`X = [[1]]`, `W = [[0]]`, `b = [[0]]`, `y = [[0]]` the computed weight
gradient differs from the exact closed-form `Xᵗ(sigmoid(XW+b) - y)` because
of the `1e-8` stabilisation in the loss derivative. -/
theorem C2_counterexample :
    (backward mLogR (forward mLogR (fun _ _ _ => 0) [[1]] true).1 [[0]]
        (forward mLogR (fun _ _ _ => 0) [[1]] true).2).1 ≠
      [matMul (transposeM [[(1 : ℝ)]])
        (map2M (fun av yv => av - yv)
          (lastD (forward mLogR (fun _ _ _ => 0) [[1]] true).1 []) [[0]])] := by
  have hrm : ∀ r ∈ mLogR.dropout_rates, ¬ ((0 : ℝ) < r) := by
    intro r hrm
    simp only [mLogR, List.mem_singleton] at hrm
    rw [hrm]
    exact lt_irrefl 0
  have ha : sigmoid Real.exp (dot [(1 : ℝ)] [0] + 0) = 1 / 2 := by
    simp [sigmoid, dot, Real.exp_zero]
    norm_num
  have hgrad := backward_logistic_closed_form mLogR Real.exp (fun _ _ _ => 0) true
    [1] [0] 0 0 rfl rfl rfl rfl hrm (by simp)
  have hfw := forward_logistic mLogR Real.exp (fun _ _ _ => 0) true
    [1] [0] 0 rfl rfl rfl hrm (by simp)
  rw [hgrad, hfw, ha]
  simp [matMul, transposeM, map2M, dot, lastD, eps,
    show List.range 1 = [0] from rfl]
  norm_num

end MLP
